import Mathlib

/-!
# The emulated fan device handler (`pkg/devices/fan.go`)

A shallow embedding of the fan handler of the Synse emulator plugin and of the
properties its specification states about it.

* The package variable `speed` becomes the one field of `State`; the two
  handlers `fanRead` and `fanWrite` take the state and give it back.
* The host framework (`sdk.Device`, `sdk.Output`, `sdk.Reading`) is a parameter:
  a device is whatever answers `GetOutput` and `MakeReading`.
* `strconv.Atoi` belongs to the Go standard library; it is embedded from the
  library's algorithm for a platform whose `int` has 64 bits.
* A Go `string` or `[]byte` is a list of bytes; byte arithmetic is done on
  natural numbers modulo 256, `uint64` arithmetic modulo `2 ^ 64`.
-/

namespace Fan

/-! ## Errors -/

/-- The two sentinel errors of package `strconv`: `ErrSyntax` ("invalid syntax")
and `ErrRange` ("value out of range"). -/
inductive StrconvErr where
  | ErrSyntax
  | ErrRange
  deriving DecidableEq, Repr

/-- The record behind `*strconv.NumError`: the failing function, its input and
the reason. -/
structure NumError where
  Func : String
  Num : List UInt8
  Err : StrconvErr
  deriving DecidableEq, Repr

/-- A non-nil Go `error` value: either an error that is only a message (what
`fmt.Errorf` and `errors.New` build) or a `*strconv.NumError`. The nil error is
`none` of `Option Error`. -/
inductive Error where
  | errorString (msg : String)
  | numError (e : NumError)
  deriving DecidableEq, Repr

/-- `fmt.Errorf` applied to a format without verbs and no further arguments: the
error whose message is the format itself. -/
def Errorf (format : String) : Error :=
  Error.errorString format

/-! ## `strconv.Atoi` (Go standard library, 64-bit `int`) -/

/-- `strconv.IntSize` on a 64-bit platform. -/
def intSize : Nat := 64

/-- `1<<64 - 1`. -/
def maxUint64 : Nat := 2 ^ 64 - 1

/-- The smallest value of a 64-bit `int`. -/
def minInt : Int := -(2 ^ 63)

/-- The largest value of a 64-bit `int`. -/
def maxInt : Int := 2 ^ 63 - 1

/-- `syntaxError(fn, str)` of package `strconv`. -/
def syntaxError (fn : String) (str : List UInt8) : NumError :=
  { Func := fn, Num := str, Err := StrconvErr.ErrSyntax }

/-- `rangeError(fn, str)` of package `strconv`. -/
def rangeError (fn : String) (str : List UInt8) : NumError :=
  { Func := fn, Num := str, Err := StrconvErr.ErrRange }

/-- `lower(c)` of package `strconv`: `c | ('x' - 'X')` on a byte. -/
def lower (c : Nat) : Nat :=
  c ||| 32

/-- The conversion `int64(u)` of a `uint64`: the same 64 bits read as signed. -/
def toInt64 (u : Nat) : Int :=
  if u % 2 ^ 64 < 2 ^ 63 then ((u % 2 ^ 64 : Nat) : Int) else ((u % 2 ^ 64 : Nat) : Int) - 2 ^ 64

/-- The negation `-n` of an `int64`, which wraps at the smallest value. -/
def negInt64 (n : Int) : Int :=
  if n = -(2 ^ 63) then n else -n

/-- The loop of the fast path of `Atoi`,
`for _, ch := range []byte(s) { ch -= '0'; if ch > 9 { return 0, syntaxError }; n = n*10 + int(ch) }`,
from the accumulator `n`: `none` is the return with a syntax error, `some n` the
value of `n` when the loop ends. The fast path runs on fewer than 19 bytes, so
`n` stays below `10 ^ 18` and the `int` arithmetic cannot overflow
(`atoiLoop_bound`). -/
def atoiLoop : Nat → List UInt8 → Option Nat
  | n, [] => some n
  | n, ch :: rest =>
    let ch0 := (ch.toNat + 256 - 48) % 256
    if ch0 > 9 then none else atoiLoop (n * 10 + ch0) rest

/-- The digit loop of `strconv.ParseUint(s, 10, 0)` from the accumulator `n`,
for the original input `s0`: the pair `(value, error)` the function returns.
With base 10 the cutoff is `maxUint64/10 + 1`, `maxVal` is `1<<64 - 1`, and the
underscore case of the switch is off (`base0` is false). -/
def parseUintLoop (s0 : List UInt8) : Nat → List UInt8 → Nat × Option NumError
  | n, [] => (n, none)
  | n, c :: rest =>
    let cn := c.toNat
    let d : Option Nat :=
      if 48 ≤ cn ∧ cn ≤ 57 then some (cn - 48)
      else if 97 ≤ lower cn ∧ lower cn ≤ 122 then some (lower cn - 97 + 10)
      else none
    match d with
    | none => (0, some (syntaxError "ParseUint" s0))
    | some d =>
      if d ≥ 10 then (0, some (syntaxError "ParseUint" s0))
      else if n ≥ maxUint64 / 10 + 1 then (maxUint64, some (rangeError "ParseUint" s0))
      else
        let m := (n * 10) % 2 ^ 64
        let n1 := (m + d) % 2 ^ 64
        if n1 < m ∨ n1 > maxUint64 then (maxUint64, some (rangeError "ParseUint" s0))
        else parseUintLoop s0 n1 rest

/-- `strconv.ParseUint(s, 10, 0)`: base 10 is a valid base and needs no prefix
handling, bit size 0 stands for `IntSize`. -/
def ParseUint (s : List UInt8) : Nat × Option NumError :=
  if s = [] then (0, some (syntaxError "ParseUint" s))
  else parseUintLoop s 0 s

/-- `strconv.ParseInt(s, 10, 0)`: the sign is picked off, the rest goes through
`ParseUint`, and the result is checked against `1 << (IntSize-1)`. -/
def ParseInt (s : List UInt8) : Int × Option NumError :=
  match s with
  | [] => (0, some (syntaxError "ParseInt" s))
  | c :: rest =>
    let neg := c.toNat = 45
    let t := if c.toNat = 43 ∨ c.toNat = 45 then rest else s
    let r := ParseUint t
    match r.2 with
    | some { Func := _, Num := _, Err := StrconvErr.ErrSyntax } =>
      (0, some (syntaxError "ParseInt" s))
    | _ =>
      let un := r.1
      let cutoff := 2 ^ (intSize - 1)
      if ¬ neg ∧ un ≥ cutoff then (toInt64 (cutoff - 1), some (rangeError "ParseInt" s))
      else if neg ∧ un > cutoff then (negInt64 (toInt64 cutoff), some (rangeError "ParseInt" s))
      else
        let n := toInt64 un
        (if neg then negInt64 n else n, none)

/-- `strconv.Atoi(s)`: the pair `(value, error)`. Inputs of 1 to 18 bytes take
the fast path; the others go through `ParseInt(s, 10, 0)`, whose error is
relabelled with the function name `Atoi`. -/
def Atoi (s : List UInt8) : Int × Option Error :=
  if 0 < s.length ∧ s.length < 19 then
    match s with
    | [] => (0, some (Error.numError (syntaxError "Atoi" s)))
    | c :: rest =>
      let signed := c.toNat = 45 ∨ c.toNat = 43
      let t := if signed then rest else s
      if signed ∧ t.length < 1 then (0, some (Error.numError (syntaxError "Atoi" s)))
      else
        match atoiLoop 0 t with
        | none => (0, some (Error.numError (syntaxError "Atoi" s)))
        | some n => (if c.toNat = 45 then -(n : Int) else (n : Int), none)
  else
    let r := ParseInt s
    match r.2 with
    | some nerr => (r.1, some (Error.numError { nerr with Func := "Atoi" }))
    | none => (r.1, none)

/-! ## The host framework -/

/-- `sdk.WriteData`: the action name (a text) and the raw bytes of a write. The
handlers receive a pointer to it; a nil pointer, on which the Go code panics, is
not an input of the embedding. -/
structure WriteData where
  Action : String
  Data : List UInt8
  deriving DecidableEq, Repr

/-- `*sdk.Output` as far as the handler uses it: `MakeReading(value)` gives a
reading pointer (of the host's type `R`) and an error. -/
structure Output (R : Type) where
  MakeReading : Int → R × Option Error

/-- `*sdk.Device` as far as the handler uses it: `GetOutput(name)`. What the host
does for a name the device has no output for is the host's; the embedding takes
the answer as given. -/
structure Device (R : Type) where
  GetOutput : String → Output R

/-! ## The handler -/

/-- The state of package `devices`: `var speed int`. -/
structure State where
  speed : Int
  deriving DecidableEq, Repr

/-- The state when the package is loaded: `speed` has the zero value of `int`. -/
def initState : State :=
  { speed := 0 }

/-- The read handler `fanRead(device)`: the returned pair `([]*sdk.Reading, error)`
and the state afterwards. The nil slice is the empty list. `MakeReading` is code
of the host and cannot reach the unexported `speed`, so the state is handed on as
it came. -/
def fanRead {R : Type} (st : State) (device : Device R) : (List R × Option Error) × State :=
  let r := (device.GetOutput "fan.speed").MakeReading st.speed
  match r.2 with
  | some err => (([], some err), st)
  | none => (([r.1], none), st)

/-- The write handler `fanWrite(_, data)`: the returned `error` (`none` is nil)
and the state afterwards. `string(raw)` keeps the bytes, so `Atoi` runs on `raw`
itself. -/
def fanWrite {R : Type} (st : State) (_device : Device R) (data : WriteData) :
    Option Error × State :=
  let action := data.Action
  let raw := data.Data
  if raw.length = 0 then
    (some (Errorf "no values specified for 'data', but required"), st)
  else if action = "speed" then
    let r := Atoi raw
    match r.2 with
    | some err => (some err, st)
    | none => (none, { st with speed := r.1 })
  else
    (none, st)

/-- The body of `fanWrite` with the integer parser it calls left open: `parse`
stands where the source calls `strconv.Atoi`. -/
def fanWriteWith {R : Type} (parse : List UInt8 → Int × Option Error) (st : State)
    (_device : Device R) (data : WriteData) : Option Error × State :=
  let action := data.Action
  let raw := data.Data
  if raw.length = 0 then
    (some (Errorf "no values specified for 'data', but required"), st)
  else if action = "speed" then
    let r := parse raw
    match r.2 with
    | some err => (some err, st)
    | none => (none, { st with speed := r.1 })
  else
    (none, st)

/-- `sdk.DeviceHandler` as far as the package fills it in: the name of the device
type and the two handler functions. -/
structure DeviceHandler (R : Type) where
  Name : String
  Read : State → Device R → (List R × Option Error) × State
  Write : State → Device R → WriteData → Option Error × State

/-- The exported handler descriptor
`var Fan = sdk.DeviceHandler{Name: "fan", Read: fanRead, Write: fanWrite}`. -/
def Fan (R : Type) : DeviceHandler R :=
  { Name := "fan", Read := fanRead, Write := fanWrite }

/-! ## Base-10 integer texts -/

/-- Whether a byte is one of the ASCII digits `'0'` to `'9'`. -/
def isDigit (c : UInt8) : Bool :=
  decide (48 ≤ c.toNat) && decide (c.toNat ≤ 57)

/-- The number a string of digits denotes in base 10, continuing from `n`. -/
def digitsFrom : Nat → List UInt8 → Nat
  | n, [] => n
  | n, c :: rest => digitsFrom (n * 10 + (c.toNat - 48)) rest

/-- The number a string of digits denotes in base 10. -/
def digitsValue (ds : List UInt8) : Nat :=
  digitsFrom 0 ds

/-- Specification side, independent of `Atoi`: the integer a base-10 integer text
denotes. The text is one optional sign `'+'` or `'-'` followed by one or more
ASCII digits; any other byte string denotes nothing. No bound is put on the
integer. -/
def intTextValue (s : List UInt8) : Option Int :=
  match s with
  | [] => none
  | c :: rest =>
    if c.toNat = 43 then
      if rest ≠ [] ∧ rest.all isDigit = true then some (digitsValue rest : Int) else none
    else if c.toNat = 45 then
      if rest ≠ [] ∧ rest.all isDigit = true then some (-(digitsValue rest : Int)) else none
    else if s.all isDigit = true then some (digitsValue s : Int)
    else none

/-- The string `ParseInt` and the fast path of `Atoi` go on with after the first
byte `c`: the input without its sign. -/
def unsignedPart (c : UInt8) (rest : List UInt8) : List UInt8 :=
  if c.toNat = 43 ∨ c.toNat = 45 then rest else c :: rest

/-- The byte of the decimal digit `d`. -/
def digitByte (d : Nat) : UInt8 :=
  UInt8.ofNat (48 + d % 10)

/-- The decimal digits of `n` put in front of `acc`, last digit first as
`strconv.Itoa` writes them; `fuel` bounds the number of digits. -/
def decimalDigits : Nat → Nat → List UInt8 → List UInt8
  | 0, _, acc => acc
  | fuel + 1, n, acc =>
    if n < 10 then digitByte n :: acc
    else decimalDigits fuel (n / 10) (digitByte (n % 10) :: acc)

/-- The decimal text of a natural number: its digits without leading zeros, `"0"`
for zero. -/
def natText (n : Nat) : List UInt8 :=
  decimalDigits (n + 1) n []

/-- Specification side: the decimal text of an integer, as `strconv.Itoa` renders
it: a `'-'` in front of the digits of a negative number, no sign otherwise. -/
def decimalText (n : Int) : List UInt8 :=
  if n < 0 then 45 :: natText n.natAbs else natText n.natAbs

/-! ## Calls and observers -/

/-- A device of the host whose readings record which device made them (`tag`),
the name of the output asked for and the value handed to `MakeReading`; its
`MakeReading` accepts every value. -/
def probe (tag : Nat) : Device (Nat × String × Int) :=
  { GetOutput := fun name => { MakeReading := fun v => ((tag, name, v), none) } }

/-- A device of the host whose `MakeReading` rejects every value with the error
`e` and gives the nil reading. -/
def failing (e : Error) : Device (Option Unit) :=
  { GetOutput := fun _ => { MakeReading := fun _ => (none, some e) } }

/-- A call of the host on the handler. -/
inductive Call (R : Type) where
  | read (device : Device R)
  | write (device : Device R) (data : WriteData)

/-- The state after one call of the host. -/
def step {R : Type} (st : State) : Call R → State
  | Call.read device => (fanRead st device).2
  | Call.write device data => (fanWrite st device data).2

/-- A sequence of `fanWrite` calls run from `st`: the error each call returned,
in order, and the state at the end. -/
def runWrites {R : Type} (st : State) : List (Device R × WriteData) → List (Option Error) × State
  | [] => ([], st)
  | call :: rest =>
    let r := fanWrite st call.1 call.2
    let rs := runWrites r.2 rest
    (r.1 :: rs.1, rs.2)

/-- Specification side: the last entry of a log of writes and their returned
errors that has action `"speed"` and returned no error. -/
def lastSpeedWrite (log : List (WriteData × Option Error)) : Option (WriteData × Option Error) :=
  log.reverse.find? (fun p => decide (p.1.Action = "speed") && p.2.isNone)

/-- Specification side: the value `speed` holds after the writes of a log, as the
specification words it: the integer parsed from the data of the last write with action
`"speed"` that returned no error, or `start` when the log has no such write. -/
def expectedSpeed (start : Int) (log : List (WriteData × Option Error)) : Int :=
  match lastSpeedWrite log with
  | some p => (Atoi p.1.Data).1
  | none => start

/-! ## Unfolding equations -/

theorem digitsFrom_nil (n : Nat) : digitsFrom n [] = n := rfl

theorem digitsFrom_cons (n : Nat) (c : UInt8) (rest : List UInt8) :
    digitsFrom n (c :: rest) = digitsFrom (n * 10 + (c.toNat - 48)) rest := rfl

theorem atoiLoop_nil (n : Nat) : atoiLoop n [] = some n := rfl

theorem atoiLoop_cons (n : Nat) (c : UInt8) (rest : List UInt8) :
    atoiLoop n (c :: rest) =
      if (c.toNat + 256 - 48) % 256 > 9 then none
      else atoiLoop (n * 10 + (c.toNat + 256 - 48) % 256) rest := rfl

theorem isDigit_iff (c : UInt8) : isDigit c = true ↔ 48 ≤ c.toNat ∧ c.toNat ≤ 57 := by
  unfold isDigit
  rw [Bool.and_eq_true, decide_eq_true_iff, decide_eq_true_iff]

theorem all_isDigit_cons (c : UInt8) (rest : List UInt8) :
    (c :: rest).all isDigit = true ↔
      (48 ≤ c.toNat ∧ c.toNat ≤ 57) ∧ rest.all isDigit = true := by
  rw [List.all_cons, Bool.and_eq_true, isDigit_iff]

theorem maxUint64_eq : maxUint64 = 18446744073709551615 := by
  unfold maxUint64
  norm_num

theorem parseUintLoop_nil (s0 : List UInt8) (n : Nat) :
    parseUintLoop s0 n [] = (n, none) := rfl

/-- One round of the `ParseUint` loop on a digit. -/
theorem parseUintLoop_digit (s0 : List UInt8) (n : Nat) (c : UInt8) (rest : List UInt8)
    (hc : 48 ≤ c.toNat ∧ c.toNat ≤ 57) :
    parseUintLoop s0 n (c :: rest) =
      if n ≥ maxUint64 / 10 + 1 then (maxUint64, some (rangeError "ParseUint" s0))
      else if ((n * 10) % 2 ^ 64 + (c.toNat - 48)) % 2 ^ 64 < (n * 10) % 2 ^ 64 ∨
          ((n * 10) % 2 ^ 64 + (c.toNat - 48)) % 2 ^ 64 > maxUint64 then
        (maxUint64, some (rangeError "ParseUint" s0))
      else parseUintLoop s0 (((n * 10) % 2 ^ 64 + (c.toNat - 48)) % 2 ^ 64) rest := by
  have h10 : ¬ (c.toNat - 48 ≥ 10) := by omega
  rw [parseUintLoop]
  simp only [if_pos hc, if_neg h10]

/-- One round of the `ParseUint` loop on a byte that is no digit: a letter is a
digit of a base above 10, any other byte no digit at all. -/
theorem parseUintLoop_not_digit (s0 : List UInt8) (n : Nat) (c : UInt8) (rest : List UInt8)
    (hc : ¬ (48 ≤ c.toNat ∧ c.toNat ≤ 57)) :
    parseUintLoop s0 n (c :: rest) = (0, some (syntaxError "ParseUint" s0)) := by
  rw [parseUintLoop]
  by_cases hl : 97 ≤ lower c.toNat ∧ lower c.toNat ≤ 122
  · have h10 : lower c.toNat - 97 + 10 ≥ 10 := by omega
    simp only [if_neg hc, if_pos hl, if_pos h10]
  · simp only [if_neg hc, if_neg hl]

/-! ## Lemmas on the loops -/

theorem digitsFrom_ge (ds : List UInt8) (n : Nat) : n ≤ digitsFrom n ds := by
  induction ds generalizing n with
  | nil => rw [digitsFrom_nil]
  | cons c rest ih =>
    have h := ih (n * 10 + (c.toNat - 48))
    rw [digitsFrom_cons]
    omega

theorem digitsFrom_lt (ds : List UInt8) (hd : ds.all isDigit = true) (n : Nat) :
    digitsFrom n ds < (n + 1) * 10 ^ ds.length := by
  induction ds generalizing n with
  | nil =>
    rw [digitsFrom_nil, List.length_nil, pow_zero]
    omega
  | cons c rest ih =>
    rw [all_isDigit_cons] at hd
    have hc := hd.1
    have h := ih hd.2 (n * 10 + (c.toNat - 48))
    have h2 : (n * 10 + (c.toNat - 48) + 1) * 10 ^ rest.length
        ≤ ((n + 1) * 10) * 10 ^ rest.length :=
      Nat.mul_le_mul_right _ (by omega)
    rw [digitsFrom_cons, List.length_cons, pow_succ]
    calc digitsFrom (n * 10 + (c.toNat - 48)) rest
        < (n * 10 + (c.toNat - 48) + 1) * 10 ^ rest.length := h
      _ ≤ ((n + 1) * 10) * 10 ^ rest.length := h2
      _ = (n + 1) * (10 ^ rest.length * 10) := by ring

/-- The fast-path loop on digits computes the denoted number. -/
theorem atoiLoop_digits (ds : List UInt8) (hd : ds.all isDigit = true) (n : Nat) :
    atoiLoop n ds = some (digitsFrom n ds) := by
  induction ds generalizing n with
  | nil => rfl
  | cons c rest ih =>
    rw [all_isDigit_cons] at hd
    have hc := hd.1
    have h0 : (c.toNat + 256 - 48) % 256 = c.toNat - 48 := by omega
    have h1 : ¬ (c.toNat - 48 > 9) := by omega
    rw [atoiLoop_cons, digitsFrom_cons, h0, if_neg h1]
    exact ih hd.2 _

/-- The fast-path loop stops with a syntax error on a byte that is no digit. -/
theorem atoiLoop_not_digits (ds : List UInt8) (hd : ¬ (ds.all isDigit = true)) (n : Nat) :
    atoiLoop n ds = none := by
  induction ds generalizing n with
  | nil => exact absurd rfl hd
  | cons c rest ih =>
    rw [all_isDigit_cons] at hd
    by_cases hc : 48 ≤ c.toNat ∧ c.toNat ≤ 57
    · have h0 : (c.toNat + 256 - 48) % 256 = c.toNat - 48 := by omega
      have h1 : ¬ (c.toNat - 48 > 9) := by omega
      have hr : ¬ (rest.all isDigit = true) := fun hr => hd ⟨hc, hr⟩
      rw [atoiLoop_cons, h0, if_neg h1]
      exact ih hr _
    · have hlt : c.toNat < 256 := UInt8.toNat_lt_size c
      have h1 : (c.toNat + 256 - 48) % 256 > 9 := by omega
      rw [atoiLoop_cons, if_pos h1]

/-- The bound behind the fast path: fewer than 19 digits denote a number below
`10 ^ 18`, which a 64-bit `int` holds. -/
theorem atoiLoop_bound (ds : List UInt8) (hd : ds.all isDigit = true)
    (hl : ds.length < 19) : digitsFrom 0 ds < 10 ^ 18 := by
  have h := digitsFrom_lt ds hd 0
  have hp : 10 ^ ds.length ≤ 10 ^ 18 := Nat.pow_le_pow_right (by norm_num) (by omega)
  omega

/-- The `ParseUint` loop on digits whose number fits 64 bits gives the number. -/
theorem parseUintLoop_digits (s0 : List UInt8) (ds : List UInt8)
    (hd : ds.all isDigit = true) (n : Nat) (hv : digitsFrom n ds ≤ maxUint64) :
    parseUintLoop s0 n ds = (digitsFrom n ds, none) := by
  induction ds generalizing n with
  | nil => rfl
  | cons c rest ih =>
    rw [all_isDigit_cons] at hd
    have hc := hd.1
    rw [digitsFrom_cons] at hv
    have hge := digitsFrom_ge rest (n * 10 + (c.toNat - 48))
    have hm := maxUint64_eq
    have h1 : ¬ (n ≥ maxUint64 / 10 + 1) := by omega
    have h2 : ((n * 10) % 2 ^ 64 + (c.toNat - 48)) % 2 ^ 64 = n * 10 + (c.toNat - 48) := by
      omega
    have h3 : (n * 10) % 2 ^ 64 = n * 10 := by omega
    have h4 : ¬ (n * 10 + (c.toNat - 48) < n * 10 ∨ n * 10 + (c.toNat - 48) > maxUint64) := by
      omega
    rw [parseUintLoop_digit s0 n c rest hc, if_neg h1, h2, h3, if_neg h4, digitsFrom_cons]
    exact ih hd.2 _ hv

/-- The `ParseUint` loop on digits whose number exceeds 64 bits gives the largest
`uint64` and a range error. -/
theorem parseUintLoop_overflow (s0 : List UInt8) (ds : List UInt8)
    (hd : ds.all isDigit = true) (n : Nat) (hn : n ≤ maxUint64)
    (hv : maxUint64 < digitsFrom n ds) :
    parseUintLoop s0 n ds = (maxUint64, some (rangeError "ParseUint" s0)) := by
  induction ds generalizing n with
  | nil =>
    rw [digitsFrom_nil] at hv
    omega
  | cons c rest ih =>
    rw [all_isDigit_cons] at hd
    have hc := hd.1
    rw [digitsFrom_cons] at hv
    have hm := maxUint64_eq
    rw [parseUintLoop_digit s0 n c rest hc]
    by_cases h1 : n ≥ maxUint64 / 10 + 1
    · rw [if_pos h1]
    · rw [if_neg h1]
      have h3 : (n * 10) % 2 ^ 64 = n * 10 := by omega
      by_cases h5 : n * 10 + (c.toNat - 48) ≤ maxUint64
      · have h2 : ((n * 10) % 2 ^ 64 + (c.toNat - 48)) % 2 ^ 64
            = n * 10 + (c.toNat - 48) := by omega
        have h4 : ¬ (n * 10 + (c.toNat - 48) < n * 10 ∨
            n * 10 + (c.toNat - 48) > maxUint64) := by omega
        rw [h2, h3, if_neg h4]
        exact ih hd.2 _ h5 hv
      · have h4 : ((n * 10) % 2 ^ 64 + (c.toNat - 48)) % 2 ^ 64 < (n * 10) % 2 ^ 64 ∨
            ((n * 10) % 2 ^ 64 + (c.toNat - 48)) % 2 ^ 64 > maxUint64 := by
          left
          omega
        rw [if_pos h4]

/-- The `ParseUint` loop on a string with a byte that is no digit fails: with a
syntax error, or with a range error when the digits before that byte already
exceed 64 bits. -/
theorem parseUintLoop_not_digits (s0 : List UInt8) (ds : List UInt8)
    (hd : ¬ (ds.all isDigit = true)) (n : Nat) :
    parseUintLoop s0 n ds = (0, some (syntaxError "ParseUint" s0)) ∨
      parseUintLoop s0 n ds = (maxUint64, some (rangeError "ParseUint" s0)) := by
  induction ds generalizing n with
  | nil => exact absurd rfl hd
  | cons c rest ih =>
    rw [all_isDigit_cons] at hd
    by_cases hc : 48 ≤ c.toNat ∧ c.toNat ≤ 57
    · have hr : ¬ (rest.all isDigit = true) := fun hr => hd ⟨hc, hr⟩
      rw [parseUintLoop_digit s0 n c rest hc]
      by_cases h1 : n ≥ maxUint64 / 10 + 1
      · rw [if_pos h1]
        exact Or.inr rfl
      · rw [if_neg h1]
        by_cases h4 : ((n * 10) % 2 ^ 64 + (c.toNat - 48)) % 2 ^ 64 < (n * 10) % 2 ^ 64 ∨
            ((n * 10) % 2 ^ 64 + (c.toNat - 48)) % 2 ^ 64 > maxUint64
        · rw [if_pos h4]
          exact Or.inr rfl
        · rw [if_neg h4]
          exact ih hr _
    · rw [parseUintLoop_not_digit s0 n c rest hc]
      exact Or.inl rfl

/-! ## Lemmas on `ParseUint`, `ParseInt` and `Atoi` -/

theorem ParseUint_digits (t : List UInt8) (ht : t ≠ []) (hd : t.all isDigit = true)
    (hv : digitsValue t ≤ maxUint64) : ParseUint t = (digitsValue t, none) := by
  unfold ParseUint
  rw [if_neg ht]
  exact parseUintLoop_digits t t hd 0 hv

theorem ParseUint_overflow (t : List UInt8) (ht : t ≠ []) (hd : t.all isDigit = true)
    (hv : maxUint64 < digitsValue t) :
    ParseUint t = (maxUint64, some (rangeError "ParseUint" t)) := by
  unfold ParseUint
  rw [if_neg ht]
  exact parseUintLoop_overflow t t hd 0 (Nat.zero_le _) hv

theorem ParseUint_not_digits (t : List UInt8) (h : t = [] ∨ ¬ (t.all isDigit = true)) :
    ParseUint t = (0, some (syntaxError "ParseUint" t)) ∨
      ParseUint t = (maxUint64, some (rangeError "ParseUint" t)) := by
  unfold ParseUint
  by_cases ht : t = []
  · rw [if_pos ht]
    exact Or.inl rfl
  · rw [if_neg ht]
    rcases h with h | h
    · exact absurd h ht
    · exact parseUintLoop_not_digits t t h 0

theorem ParseInt_of_ok (c : UInt8) (rest : List UInt8) (v : Nat)
    (h : ParseUint (unsignedPart c rest) = (v, none)) :
    ParseInt (c :: rest) =
      if ¬ c.toNat = 45 ∧ v ≥ 2 ^ 63 then
        (toInt64 (2 ^ 63 - 1), some (rangeError "ParseInt" (c :: rest)))
      else if c.toNat = 45 ∧ v > 2 ^ 63 then
        (negInt64 (toInt64 (2 ^ 63)), some (rangeError "ParseInt" (c :: rest)))
      else (if c.toNat = 45 then negInt64 (toInt64 v) else toInt64 v, none) := by
  unfold unsignedPart at h
  unfold ParseInt
  simp only [h, intSize]

theorem ParseInt_of_syntax (c : UInt8) (rest : List UInt8) (v : Nat) (f : String)
    (x : List UInt8) (h : ParseUint (unsignedPart c rest) = (v, some (syntaxError f x))) :
    ParseInt (c :: rest) = (0, some (syntaxError "ParseInt" (c :: rest))) := by
  unfold unsignedPart at h
  unfold ParseInt
  simp only [h, syntaxError]

theorem ParseInt_of_range (c : UInt8) (rest : List UInt8) (f : String)
    (x : List UInt8)
    (h : ParseUint (unsignedPart c rest) = (maxUint64, some (rangeError f x))) :
    ∃ n, ParseInt (c :: rest) = (n, some (rangeError "ParseInt" (c :: rest))) := by
  have hm := maxUint64_eq
  unfold unsignedPart at h
  unfold ParseInt
  simp only [h, rangeError, intSize]
  by_cases hn : c.toNat = 45
  · have h2 : ¬ (¬ c.toNat = 45 ∧ maxUint64 ≥ 2 ^ (64 - 1)) := fun hh => hh.1 hn
    have h3 : c.toNat = 45 ∧ maxUint64 > 2 ^ (64 - 1) := ⟨hn, by omega⟩
    rw [if_neg h2, if_pos h3]
    exact ⟨_, rfl⟩
  · have h2 : ¬ c.toNat = 45 ∧ maxUint64 ≥ 2 ^ (64 - 1) := ⟨hn, by omega⟩
    rw [if_pos h2]
    exact ⟨_, rfl⟩

theorem intTextValue_cons (c : UInt8) (rest : List UInt8) :
    intTextValue (c :: rest) =
      if unsignedPart c rest ≠ [] ∧ (unsignedPart c rest).all isDigit = true then
        some (if c.toNat = 45 then -(digitsValue (unsignedPart c rest) : Int)
          else (digitsValue (unsignedPart c rest) : Int))
      else none := by
  have hu : intTextValue (c :: rest) =
      if c.toNat = 43 then
        if rest ≠ [] ∧ rest.all isDigit = true then some (digitsValue rest : Int) else none
      else if c.toNat = 45 then
        if rest ≠ [] ∧ rest.all isDigit = true then some (-(digitsValue rest : Int)) else none
      else if (c :: rest).all isDigit = true then some (digitsValue (c :: rest) : Int)
      else none := rfl
  rw [hu]
  unfold unsignedPart
  by_cases h43 : c.toNat = 43
  · have h45 : ¬ c.toNat = 45 := by omega
    rw [if_pos h43, if_pos (Or.inl h43), if_neg h45]
  · by_cases h45 : c.toNat = 45
    · rw [if_neg h43, if_pos h45, if_pos (Or.inr h45), if_pos h45]
    · have hor : ¬ (c.toNat = 43 ∨ c.toNat = 45) := fun h => h.elim h43 h45
      rw [if_neg h43, if_neg h45, if_neg hor, if_neg h45]
      by_cases hd : (c :: rest).all isDigit = true
      · rw [if_pos hd, if_pos ⟨List.cons_ne_nil c rest, hd⟩]
      · rw [if_neg hd, if_neg (fun h => hd h.2)]

theorem Atoi_fast (c : UInt8) (rest : List UInt8) (hl : (c :: rest).length < 19) :
    Atoi (c :: rest) =
      if (c.toNat = 45 ∨ c.toNat = 43) ∧ (unsignedPart c rest).length < 1 then
        (0, some (Error.numError (syntaxError "Atoi" (c :: rest))))
      else
        match atoiLoop 0 (unsignedPart c rest) with
        | none => (0, some (Error.numError (syntaxError "Atoi" (c :: rest))))
        | some n => (if c.toNat = 45 then -(n : Int) else (n : Int), none) := by
  have h0 : 0 < (c :: rest).length ∧ (c :: rest).length < 19 :=
    ⟨Nat.succ_pos _, hl⟩
  have hu : unsignedPart c rest = if c.toNat = 45 ∨ c.toNat = 43 then rest else c :: rest := by
    unfold unsignedPart
    by_cases h : c.toNat = 43 ∨ c.toNat = 45
    · rw [if_pos h, if_pos h.symm]
    · rw [if_neg h, if_neg (fun h2 => h h2.symm)]
  unfold Atoi
  rw [if_pos h0, hu]

theorem Atoi_slow (s : List UInt8) (hl : ¬ (0 < s.length ∧ s.length < 19)) :
    Atoi s =
      match (ParseInt s).2 with
      | some nerr => ((ParseInt s).1, some (Error.numError { nerr with Func := "Atoi" }))
      | none => ((ParseInt s).1, none) := by
  unfold Atoi
  rw [if_neg hl]

/-- `Atoi` on a base-10 integer text whose integer a 64-bit `int` holds returns
that integer and no error. -/
theorem Atoi_of_intText (s : List UInt8) (n : Int) (h : intTextValue s = some n)
    (hlo : minInt ≤ n) (hhi : n ≤ maxInt) : Atoi s = (n, none) := by
  cases s with
  | nil => exact absurd h (by simp [intTextValue])
  | cons c rest =>
    rw [intTextValue_cons] at h
    by_cases hg : unsignedPart c rest ≠ [] ∧ (unsignedPart c rest).all isDigit = true
    · rw [if_pos hg] at h
      have hn := Option.some.inj h
      by_cases hl : (c :: rest).length < 19
      · have hlen : ¬ ((c.toNat = 45 ∨ c.toNat = 43) ∧ (unsignedPart c rest).length < 1) := by
          intro hh
          have := List.length_pos.mpr hg.1
          omega
        rw [Atoi_fast c rest hl, if_neg hlen, atoiLoop_digits _ hg.2 0]
        show ((if c.toNat = 45 then -(digitsValue (unsignedPart c rest) : Int)
          else (digitsValue (unsignedPart c rest) : Int)), (none : Option Error)) = (n, none)
        rw [hn]
      · have hs : ¬ (0 < (c :: rest).length ∧ (c :: rest).length < 19) := fun hh => hl hh.2
        have hm := maxUint64_eq
        unfold minInt at hlo
        unfold maxInt at hhi
        have hv : digitsValue (unsignedPart c rest) ≤ maxUint64 := by
          by_cases h45 : c.toNat = 45
          · rw [if_pos h45] at hn
            omega
          · rw [if_neg h45] at hn
            omega
        have hp := ParseInt_of_ok c rest _ (ParseUint_digits _ hg.1 hg.2 hv)
        rw [Atoi_slow _ hs, hp]
        by_cases h45 : c.toNat = 45
        · rw [if_pos h45] at hn
          have h1 : ¬ (¬ c.toNat = 45 ∧ digitsValue (unsignedPart c rest) ≥ 2 ^ 63) :=
            fun hh => hh.1 h45
          have h2 : ¬ (c.toNat = 45 ∧ digitsValue (unsignedPart c rest) > 2 ^ 63) := by
            intro hh
            omega
          rw [if_neg h1, if_neg h2, if_pos h45]
          have h3 : negInt64 (toInt64 (digitsValue (unsignedPart c rest))) = n := by
            unfold negInt64 toInt64
            split_ifs <;> omega
          rw [h3]
        · rw [if_neg h45] at hn
          have h1 : ¬ (¬ c.toNat = 45 ∧ digitsValue (unsignedPart c rest) ≥ 2 ^ 63) := by
            intro hh
            omega
          have h2 : ¬ (c.toNat = 45 ∧ digitsValue (unsignedPart c rest) > 2 ^ 63) :=
            fun hh => h45 hh.1
          rw [if_neg h1, if_neg h2, if_neg h45]
          have h3 : toInt64 (digitsValue (unsignedPart c rest)) = n := by
            unfold toInt64
            split_ifs <;> omega
          rw [h3]
    · rw [if_neg hg] at h
      exact absurd h (by simp)

theorem unsignedPart_length_le (c : UInt8) (rest : List UInt8) :
    (unsignedPart c rest).length ≤ (c :: rest).length := by
  unfold unsignedPart
  split_ifs
  · exact Nat.le_succ _
  · exact Nat.le_refl _

theorem Atoi_of_ParseInt_error (s : List UInt8) (hl : ¬ (0 < s.length ∧ s.length < 19))
    (v : Int) (f : String) (x : List UInt8) (k : StrconvErr)
    (h : ParseInt s = (v, some { Func := f, Num := x, Err := k })) :
    Atoi s = (v, some (Error.numError { Func := "Atoi", Num := x, Err := k })) := by
  rw [Atoi_slow s hl, h]

/-- `Atoi` on a byte string that is no base-10 integer text returns an error, a
`NumError` of `Atoi` on that input. -/
theorem Atoi_of_not_intText (s : List UInt8) (h : intTextValue s = none) :
    ∃ v k, Atoi s = (v, some (Error.numError { Func := "Atoi", Num := s, Err := k })) := by
  cases s with
  | nil => exact ⟨0, StrconvErr.ErrSyntax, rfl⟩
  | cons c rest =>
    rw [intTextValue_cons] at h
    by_cases hg : unsignedPart c rest ≠ [] ∧ (unsignedPart c rest).all isDigit = true
    · rw [if_pos hg] at h
      exact absurd h (by simp)
    · by_cases hl : (c :: rest).length < 19
      · rw [Atoi_fast c rest hl]
        by_cases hlen : (c.toNat = 45 ∨ c.toNat = 43) ∧ (unsignedPart c rest).length < 1
        · rw [if_pos hlen]
          exact ⟨0, StrconvErr.ErrSyntax, rfl⟩
        · rw [if_neg hlen]
          have hnd : ¬ ((unsignedPart c rest).all isDigit = true) := by
            intro hd
            apply hg
            refine ⟨?_, hd⟩
            intro he
            apply hlen
            have hsigned : c.toNat = 43 ∨ c.toNat = 45 := by
              by_contra hns
              unfold unsignedPart at he
              rw [if_neg hns] at he
              exact List.cons_ne_nil c rest he
            refine ⟨hsigned.symm, ?_⟩
            rw [he]
            exact Nat.zero_lt_one
          rw [atoiLoop_not_digits _ hnd 0]
          exact ⟨0, StrconvErr.ErrSyntax, rfl⟩
      · have hs : ¬ (0 < (c :: rest).length ∧ (c :: rest).length < 19) := fun hh => hl hh.2
        have hbad : unsignedPart c rest = [] ∨ ¬ ((unsignedPart c rest).all isDigit = true) := by
          by_cases he : unsignedPart c rest = []
          · exact Or.inl he
          · exact Or.inr (fun hd => hg ⟨he, hd⟩)
        rcases ParseUint_not_digits _ hbad with hu | hu
        · have hp := ParseInt_of_syntax c rest 0 _ _ hu
          exact ⟨0, StrconvErr.ErrSyntax, Atoi_of_ParseInt_error _ hs _ _ _ _ hp⟩
        · obtain ⟨n, hp⟩ := ParseInt_of_range c rest _ _ hu
          exact ⟨n, StrconvErr.ErrRange, Atoi_of_ParseInt_error _ hs _ _ _ _ hp⟩

/-- `Atoi` on a base-10 integer text whose integer a 64-bit `int` does not hold
returns a range error. -/
theorem Atoi_of_out_of_range (s : List UInt8) (n : Int) (h : intTextValue s = some n)
    (hr : n < minInt ∨ maxInt < n) :
    ∃ v, Atoi s =
      (v, some (Error.numError { Func := "Atoi", Num := s, Err := StrconvErr.ErrRange })) := by
  cases s with
  | nil => exact absurd h (by simp [intTextValue])
  | cons c rest =>
    rw [intTextValue_cons] at h
    by_cases hg : unsignedPart c rest ≠ [] ∧ (unsignedPart c rest).all isDigit = true
    · rw [if_pos hg] at h
      have hn := Option.some.inj h
      unfold minInt maxInt at hr
      have hm := maxUint64_eq
      by_cases hl : (c :: rest).length < 19
      · exfalso
        have hb := atoiLoop_bound _ hg.2 (Nat.lt_of_le_of_lt (unsignedPart_length_le c rest) hl)
        have hb2 : digitsValue (unsignedPart c rest) < 10 ^ 18 := hb
        split_ifs at hn <;> omega
      · have hs : ¬ (0 < (c :: rest).length ∧ (c :: rest).length < 19) := fun hh => hl hh.2
        by_cases hv : digitsValue (unsignedPart c rest) ≤ maxUint64
        · have hp := ParseInt_of_ok c rest _ (ParseUint_digits _ hg.1 hg.2 hv)
          by_cases h45 : c.toNat = 45
          · rw [if_pos h45] at hn
            have h1 : ¬ (¬ c.toNat = 45 ∧ digitsValue (unsignedPart c rest) ≥ 2 ^ 63) :=
              fun hh => hh.1 h45
            have h2 : c.toNat = 45 ∧ digitsValue (unsignedPart c rest) > 2 ^ 63 :=
              ⟨h45, by omega⟩
            rw [if_neg h1, if_pos h2] at hp
            exact ⟨_, Atoi_of_ParseInt_error _ hs _ _ _ _ hp⟩
          · rw [if_neg h45] at hn
            have h1 : ¬ c.toNat = 45 ∧ digitsValue (unsignedPart c rest) ≥ 2 ^ 63 :=
              ⟨h45, by omega⟩
            rw [if_pos h1] at hp
            exact ⟨_, Atoi_of_ParseInt_error _ hs _ _ _ _ hp⟩
        · have hu := ParseUint_overflow _ hg.1 hg.2 (Nat.lt_of_not_le hv)
          obtain ⟨v, hp⟩ := ParseInt_of_range c rest _ _ hu
          exact ⟨v, Atoi_of_ParseInt_error _ hs _ _ _ _ hp⟩
    · rw [if_neg hg] at h
      exact absurd h (by simp)

/-- When `Atoi` returns no error, its input is a base-10 integer text, the value
returned is the integer the text denotes, and a 64-bit `int` holds it. -/
theorem Atoi_ok_inv (s : List UInt8) (h : (Atoi s).2 = none) :
    intTextValue s = some (Atoi s).1 ∧ minInt ≤ (Atoi s).1 ∧ (Atoi s).1 ≤ maxInt := by
  cases hv : intTextValue s with
  | none =>
    obtain ⟨v, k, he⟩ := Atoi_of_not_intText s hv
    rw [he] at h
    exact absurd h (by simp)
  | some n =>
    by_cases hr : minInt ≤ n ∧ n ≤ maxInt
    · rw [Atoi_of_intText s n hv hr.1 hr.2]
      exact ⟨rfl, hr.1, hr.2⟩
    · have hr2 : n < minInt ∨ maxInt < n := by
        by_contra hc
        apply hr
        constructor <;> omega
      obtain ⟨v, he⟩ := Atoi_of_out_of_range s n hv hr2
      rw [he] at h
      exact absurd h (by simp)

/-- Every error of `Atoi` is a `NumError` of `Atoi` on its input. -/
theorem Atoi_error_shape (s : List UInt8) (e : Error) (h : (Atoi s).2 = some e) :
    ∃ k, e = Error.numError { Func := "Atoi", Num := s, Err := k } := by
  cases hv : intTextValue s with
  | none =>
    obtain ⟨v, k, he⟩ := Atoi_of_not_intText s hv
    rw [he] at h
    exact ⟨k, (Option.some.inj h).symm⟩
  | some n =>
    by_cases hr : minInt ≤ n ∧ n ≤ maxInt
    · rw [Atoi_of_intText s n hv hr.1 hr.2] at h
      exact absurd h (by simp)
    · have hr2 : n < minInt ∨ maxInt < n := by
        by_contra hc
        apply hr
        constructor <;> omega
      obtain ⟨v, he⟩ := Atoi_of_out_of_range s n hv hr2
      rw [he] at h
      exact ⟨StrconvErr.ErrRange, (Option.some.inj h).symm⟩

/-! ## Lemmas on decimal texts -/

theorem digitByte_toNat (d : Nat) : (digitByte d).toNat = 48 + d % 10 := by
  have h : (digitByte d).toNat = (48 + d % 10) % 2 ^ 8 := by
    show (BitVec.ofNat 8 (48 + d % 10)).toNat = (48 + d % 10) % 2 ^ 8
    rw [BitVec.toNat_ofNat]
  have hlt := Nat.mod_lt d (show 10 > 0 by norm_num)
  omega

theorem decimalDigits_spec (fuel : Nat) :
    ∀ (n : Nat) (acc : List UInt8), n < fuel →
      (acc.all isDigit = true → (decimalDigits fuel n acc).all isDigit = true) ∧
      decimalDigits fuel n acc ≠ [] ∧
      ∃ k, ∀ m, digitsFrom m (decimalDigits fuel n acc) = digitsFrom (m * 10 ^ k + n) acc := by
  induction fuel with
  | zero =>
    intro n acc h
    omega
  | succ fuel ih =>
    intro n acc h
    have hu : decimalDigits (fuel + 1) n acc =
        if n < 10 then digitByte n :: acc
        else decimalDigits fuel (n / 10) (digitByte (n % 10) :: acc) := rfl
    rw [hu]
    by_cases h10 : n < 10
    · rw [if_pos h10]
      have hb := digitByte_toNat n
      refine ⟨?_, List.cons_ne_nil _ _, 1, ?_⟩
      · intro hacc
        rw [all_isDigit_cons]
        exact ⟨by omega, hacc⟩
      · intro m
        rw [digitsFrom_cons, hb, pow_one]
        congr 1
        omega
    · rw [if_neg h10]
      have hb := digitByte_toNat (n % 10)
      obtain ⟨h1, h2, k, h3⟩ := ih (n / 10) (digitByte (n % 10) :: acc) (by omega)
      refine ⟨?_, h2, k + 1, ?_⟩
      · intro hacc
        apply h1
        rw [all_isDigit_cons]
        exact ⟨by omega, hacc⟩
      · intro m
        rw [h3 m, digitsFrom_cons, hb, pow_succ]
        congr 1
        have hmul : m * (10 ^ k * 10) = m * 10 ^ k * 10 := by ring
        rw [hmul]
        omega

theorem natText_spec (n : Nat) :
    natText n ≠ [] ∧ (natText n).all isDigit = true ∧ digitsValue (natText n) = n := by
  obtain ⟨h1, h2, k, h3⟩ := decimalDigits_spec (n + 1) n [] (Nat.lt_succ_self n)
  refine ⟨h2, h1 rfl, ?_⟩
  have h := h3 0
  rw [digitsFrom_nil] at h
  unfold digitsValue natText
  rw [h]
  omega

/-- A non-empty string of digits is an integer text and denotes its number. -/
theorem intTextValue_of_digits (s : List UInt8) (hne : s ≠ [])
    (hd : s.all isDigit = true) : intTextValue s = some (digitsValue s : Int) := by
  cases s with
  | nil => exact absurd rfl hne
  | cons c rest =>
    have hc := ((all_isDigit_cons c rest).mp hd).1
    have hns : ¬ (c.toNat = 43 ∨ c.toNat = 45) := by omega
    have h45 : ¬ c.toNat = 45 := by omega
    have hu : unsignedPart c rest = c :: rest := by
      unfold unsignedPart
      rw [if_neg hns]
    rw [intTextValue_cons, hu, if_pos ⟨hne, hd⟩, if_neg h45]

/-- A `'-'` before a non-empty string of digits is an integer text and denotes
the negated number. -/
theorem intTextValue_of_minus (t : List UInt8) (hne : t ≠ [])
    (hd : t.all isDigit = true) : intTextValue (45 :: t) = some (-(digitsValue t : Int)) := by
  have h45 : (45 : UInt8).toNat = 45 := rfl
  have hu : unsignedPart 45 t = t := by
    unfold unsignedPart
    rw [if_pos (Or.inr h45)]
  rw [intTextValue_cons, hu, if_pos ⟨hne, hd⟩, if_pos h45]

/-- The decimal text of an integer is an integer text denoting that integer. -/
theorem intTextValue_decimalText (n : Int) : intTextValue (decimalText n) = some n := by
  obtain ⟨h1, h2, h3⟩ := natText_spec n.natAbs
  unfold decimalText
  by_cases hn : n < 0
  · rw [if_pos hn, intTextValue_of_minus _ h1 h2, h3]
    congr 1
    omega
  · rw [if_neg hn, intTextValue_of_digits _ h1 h2, h3]
    congr 1
    omega

/-! ## Lemmas on the handler -/

theorem fanWrite_empty {R : Type} (st : State) (d : Device R) (action : String) :
    fanWrite st d { Action := action, Data := [] } =
      (some (Errorf "no values specified for 'data', but required"), st) := rfl

theorem fanWrite_other {R : Type} (st : State) (d : Device R) (action : String)
    (raw : List UInt8) (ha : action ≠ "speed") (hne : raw ≠ []) :
    fanWrite st d { Action := action, Data := raw } = (none, st) := by
  have hl : ¬ raw.length = 0 := fun h => hne (List.length_eq_zero.mp h)
  unfold fanWrite
  simp only [if_neg hl, if_neg ha]

theorem fanWrite_speed {R : Type} (st : State) (d : Device R) (raw : List UInt8)
    (hne : raw ≠ []) :
    fanWrite st d { Action := "speed", Data := raw } =
      match (Atoi raw).2 with
      | some err => (some err, st)
      | none => (none, { st with speed := (Atoi raw).1 }) := by
  have hl : ¬ raw.length = 0 := fun h => hne (List.length_eq_zero.mp h)
  unfold fanWrite
  simp only [if_neg hl, if_true]

theorem fanWrite_speed_ok {R : Type} (st : State) (d : Device R) (raw : List UInt8)
    (n : Int) (hne : raw ≠ []) (h : Atoi raw = (n, none)) :
    fanWrite st d { Action := "speed", Data := raw } = (none, { speed := n }) := by
  rw [fanWrite_speed st d raw hne, h]

theorem fanWrite_speed_err {R : Type} (st : State) (d : Device R) (raw : List UInt8)
    (e : Error) (hne : raw ≠ []) (h : (Atoi raw).2 = some e) :
    fanWrite st d { Action := "speed", Data := raw } = (some e, st) := by
  rw [fanWrite_speed st d raw hne, h]

theorem intTextValue_ne_nil (s : List UInt8) (n : Int) (h : intTextValue s = some n) :
    s ≠ [] := by
  intro hs
  rw [hs] at h
  exact absurd h (by simp [intTextValue])

theorem fanRead_ok {R : Type} (st : State) (d : Device R) (r : R)
    (h : (d.GetOutput "fan.speed").MakeReading st.speed = (r, none)) :
    fanRead st d = (([r], none), st) := by
  unfold fanRead
  simp only [h]

theorem fanRead_err {R : Type} (st : State) (d : Device R) (r : R) (e : Error)
    (h : (d.GetOutput "fan.speed").MakeReading st.speed = (r, some e)) :
    fanRead st d = (([], some e), st) := by
  unfold fanRead
  simp only [h]

theorem fanRead_probe (st : State) (t : Nat) :
    fanRead st (probe t) = (([(t, "fan.speed", st.speed)], none), st) := rfl

theorem fanRead_state {R : Type} (st : State) (d : Device R) : (fanRead st d).2 = st := by
  cases h : (d.GetOutput "fan.speed").MakeReading st.speed with
  | mk r err =>
    cases err with
    | none => rw [fanRead_ok st d r h]
    | some e => rw [fanRead_err st d r e h]

/-! ## Lemmas on sequences of writes -/

theorem lastSpeedWrite_cons (x : WriteData × Option Error)
    (l : List (WriteData × Option Error)) :
    lastSpeedWrite (x :: l) =
      match lastSpeedWrite l with
      | some p => some p
      | none => if x.1.Action = "speed" ∧ x.2 = none then some x else none := by
  unfold lastSpeedWrite
  rw [List.reverse_cons, List.find?_append]
  cases h : List.find? (fun p => decide (p.1.Action = "speed") && p.2.isNone) l.reverse with
  | some p => rfl
  | none =>
    by_cases hx : x.1.Action = "speed" ∧ x.2 = none
    · simp [hx.1, hx.2]
    · rw [if_neg hx]
      have hb : (decide (x.1.Action = "speed") && x.2.isNone) = false := by
        by_cases ha : x.1.Action = "speed"
        · have h2 : x.2 ≠ none := fun h2 => hx ⟨ha, h2⟩
          cases hx2 : x.2 with
          | none => exact absurd hx2 h2
          | some e => simp
        · simp [ha]
      simp [List.find?, hb]

theorem expectedSpeed_cons (start : Int) (x : WriteData × Option Error)
    (l : List (WriteData × Option Error)) :
    expectedSpeed start (x :: l) =
      expectedSpeed (if x.1.Action = "speed" ∧ x.2 = none then (Atoi x.1.Data).1 else start) l := by
  unfold expectedSpeed
  rw [lastSpeedWrite_cons]
  cases h : lastSpeedWrite l with
  | some p => rfl
  | none =>
    by_cases hx : x.1.Action = "speed" ∧ x.2 = none
    · simp only [if_pos hx]
    · simp only [if_neg hx]

/-- What one write does to `speed`: the parsed integer when the action is
`"speed"` and no error is returned, nothing otherwise. -/
theorem fanWrite_speed_after {R : Type} (st : State) (d : Device R) (w : WriteData) :
    (fanWrite st d w).2.speed =
      if w.Action = "speed" ∧ (fanWrite st d w).1 = none then (Atoi w.Data).1
      else st.speed := by
  obtain ⟨action, raw⟩ := w
  by_cases hne : raw = []
  · subst hne
    rw [fanWrite_empty]
    have hn : ¬ (action = "speed" ∧
        some (Errorf "no values specified for 'data', but required") = none) :=
      fun h => Option.noConfusion h.2
    rw [if_neg hn]
  · by_cases ha : action = "speed"
    · subst ha
      cases he : (Atoi raw).2 with
      | some e =>
        rw [fanWrite_speed_err st d raw e hne he]
        have hn : ¬ ("speed" = "speed" ∧ some e = none) := fun h => Option.noConfusion h.2
        rw [if_neg hn]
      | none =>
        have hp : Atoi raw = ((Atoi raw).1, none) := Prod.ext rfl he
        rw [fanWrite_speed_ok st d raw _ hne hp]
        rw [if_pos ⟨rfl, rfl⟩]
    · rw [fanWrite_other st d action raw ha hne]
      have hn : ¬ (action = "speed" ∧ (none : Option Error) = none) := fun h => ha h.1
      rw [if_neg hn]

theorem runWrites_speed {R : Type} (calls : List (Device R × WriteData)) :
    ∀ st : State, (runWrites st calls).2.speed =
      expectedSpeed st.speed ((calls.map Prod.snd).zip (runWrites st calls).1) := by
  induction calls with
  | nil =>
    intro st
    rfl
  | cons call rest ih =>
    intro st
    have hu : runWrites st (call :: rest) =
        ((fanWrite st call.1 call.2).1 :: (runWrites (fanWrite st call.1 call.2).2 rest).1,
          (runWrites (fanWrite st call.1 call.2).2 rest).2) := rfl
    rw [hu, List.map_cons, List.zip_cons_cons, expectedSpeed_cons]
    rw [ih (fanWrite st call.1 call.2).2, fanWrite_speed_after st call.1 call.2]

/-! ## The claims -/

/-- C1, as amended: for every starting Speed and every base-10 integer text `s`
(one optional sign, then one or more digits) whose integer `n` lies in the range
of a 64-bit `int`, `fanWrite` with action "speed" and data `s` returns no error
and sets Speed to `n`; an immediately following `fanRead` on a device whose
`MakeReading` accepts `n` with reading `r` returns exactly `[r]`, and on the
recording device the one reading carries the name "fan.speed" and the value `n`. -/
theorem C1_write_then_read {R : Type} (st : State) (d d2 : Device R) (s : List UInt8)
    (n : Int) (h : intTextValue s = some n) (hlo : minInt ≤ n) (hhi : n ≤ maxInt) :
    fanWrite st d { Action := "speed", Data := s } = (none, { speed := n }) ∧
    (∀ r, (d2.GetOutput "fan.speed").MakeReading n = (r, none) →
      fanRead (fanWrite st d { Action := "speed", Data := s }).2 d2
        = (([r], none), { speed := n })) ∧
    ∀ t, fanRead (fanWrite st d { Action := "speed", Data := s }).2 (probe t)
        = (([(t, "fan.speed", n)], none), { speed := n }) := by
  have hw := fanWrite_speed_ok st d s n (intTextValue_ne_nil s n h)
    (Atoi_of_intText s n h hlo hhi)
  rw [hw]
  refine ⟨rfl, ?_, ?_⟩
  · intro r hr
    exact fanRead_ok { speed := n } d2 r hr
  · intro t
    exact fanRead_probe { speed := n } t

/-- C1 at the text "42" from Speed 7: the write succeeds and the read carries 42. -/
theorem C1_write_then_read_witness :
    fanWrite { speed := 7 } (probe 0) { Action := "speed", Data := [52, 50] }
      = (none, { speed := 42 }) ∧
    (∀ r, ((probe 1).GetOutput "fan.speed").MakeReading 42 = (r, none) →
      fanRead (fanWrite { speed := 7 } (probe 0) { Action := "speed", Data := [52, 50] }).2
        (probe 1) = (([r], none), { speed := 42 })) ∧
    ∀ t, fanRead (fanWrite { speed := 7 } (probe 0) { Action := "speed", Data := [52, 50] }).2
        (probe t) = (([(t, "fan.speed", 42)], none), { speed := 42 }) :=
  C1_write_then_read { speed := 7 } (probe 0) (probe 1) [52, 50] 42 (by decide)
    (by decide) (by decide)

/-- C1 as stated fails: "9223372036854775808" is a base-10 integer text, it
denotes 2^63, and `fanWrite` with action "speed" rejects it with a range error
and leaves Speed at 7, which is what the following read carries. -/
theorem C1_counterexample :
    intTextValue [57, 50, 50, 51, 51, 55, 50, 48, 51, 54, 56, 53, 52, 55, 55, 53, 56, 48, 56]
      = some 9223372036854775808 ∧
    fanWrite { speed := 7 } (probe 0)
      { Action := "speed",
        Data := [57, 50, 50, 51, 51, 55, 50, 48, 51, 54, 56, 53, 52, 55, 55, 53, 56, 48, 56] }
      = (some (Error.numError
          { Func := "Atoi",
            Num := [57, 50, 50, 51, 51, 55, 50, 48, 51, 54, 56, 53, 52, 55, 55, 53, 56, 48, 56],
            Err := StrconvErr.ErrRange }),
         { speed := 7 }) ∧
    fanRead { speed := 7 } (probe 0) = (([(0, "fan.speed", 7)], none), { speed := 7 }) := by
  decide

/-- C2: for every action and every starting Speed, `fanWrite` with empty data
returns the error whose message is exactly
"no values specified for 'data', but required" and leaves Speed as it was. -/
theorem C2_empty_data_rejected {R : Type} (st : State) (d : Device R) (action : String) :
    fanWrite st d { Action := action, Data := [] } =
      (some (Error.errorString "no values specified for 'data', but required"), st) :=
  fanWrite_empty st d action

/-- C3: for every starting Speed and every non-empty data that is not a base-10
integer text of a 64-bit `int`, `strconv.Atoi` returns an error, and `fanWrite`
with action "speed" returns exactly that error and leaves Speed as it was. -/
theorem C3_parse_error_propagated {R : Type} (st : State) (d : Device R) (s : List UInt8)
    (hne : s ≠ [])
    (hbad : ∀ n, intTextValue s = some n → n < minInt ∨ maxInt < n) :
    ∃ e, (Atoi s).2 = some e ∧
      fanWrite st d { Action := "speed", Data := s } = (some e, st) := by
  cases he : (Atoi s).2 with
  | none =>
    obtain ⟨h1, h2, h3⟩ := Atoi_ok_inv s he
    rcases hbad _ h1 with h | h <;> omega
  | some e =>
    exact ⟨e, rfl, fanWrite_speed_err st d s e hne he⟩

/-- C3 at the data "abc" from Speed 7. -/
theorem C3_parse_error_propagated_witness :
    ∃ e, (Atoi [97, 98, 99]).2 = some e ∧
      fanWrite { speed := 7 } (probe 0) { Action := "speed", Data := [97, 98, 99] }
        = (some e, { speed := 7 }) :=
  C3_parse_error_propagated { speed := 7 } (probe 0) [97, 98, 99] (by decide)
    (fun _ h => Option.noConfusion
      ((show intTextValue [97, 98, 99] = none by decide).symm.trans h))

/-- C4: for every action other than "speed", every non-empty data and every
starting Speed, `fanWrite` returns no error and leaves Speed as it was. -/
theorem C4_other_action_noop {R : Type} (st : State) (d : Device R) (action : String)
    (raw : List UInt8) (ha : action ≠ "speed") (hne : raw ≠ []) :
    fanWrite st d { Action := action, Data := raw } = (none, st) :=
  fanWrite_other st d action raw ha hne

/-- C4 at action "color" with data "red" from Speed 7. -/
theorem C4_other_action_noop_witness :
    fanWrite { speed := 7 } (probe 0) { Action := "color", Data := [114, 101, 100] }
      = (none, { speed := 7 }) :=
  C4_other_action_noop { speed := 7 } (probe 0) "color" [114, 101, 100] (by decide)
    (by decide)

/-- C5: for every Speed value `v`, `fanRead` asks the output named "fan.speed"
for a reading of `v`: when `MakeReading` gives `r` and no error the result is
`[r]` with no error, when it gives an error `e` the result is no readings with
exactly `e`; on the recording device the reading carries the name "fan.speed"
and the value `v`, on the rejecting device the error is the device's. -/
theorem C5_read_one_reading {R : Type} (v : Int) (d : Device R) :
    (∀ r, (d.GetOutput "fan.speed").MakeReading v = (r, none) →
      (fanRead { speed := v } d).1 = ([r], none)) ∧
    (∀ r e, (d.GetOutput "fan.speed").MakeReading v = (r, some e) →
      (fanRead { speed := v } d).1 = ([], some e)) ∧
    (∀ t, (fanRead { speed := v } (probe t)).1 = ([(t, "fan.speed", v)], none)) ∧
    ∀ e, (fanRead { speed := v } (failing e)).1 = ([], some e) := by
  refine ⟨?_, ?_, ?_, ?_⟩
  · intro r hr
    rw [fanRead_ok { speed := v } d r hr]
  · intro r e hr
    rw [fanRead_err { speed := v } d r e hr]
  · intro t
    rfl
  · intro e
    rfl

/-- C6: `fanRead` has no effect on the state: whatever `MakeReading` answers,
Speed after `fanRead` is Speed before it; a second read straight after the first
returns the same result and still carries the same value; and a call of the host
that changes the state is a write. -/
theorem C6_read_keeps_state {R : Type} (st : State) (d : Device R) :
    (fanRead st d).2 = st ∧
    fanRead (fanRead st d).2 d = fanRead st d ∧
    (∀ t, (fanRead (fanRead st d).2 (probe t)).1 = (fanRead st (probe t)).1 ∧
      (fanRead st (probe t)).1 = ([(t, "fan.speed", st.speed)], none)) ∧
    ∀ call : Call R, step st call ≠ st → ∃ d2 data, call = Call.write d2 data := by
  have hs := fanRead_state st d
  refine ⟨hs, ?_, ?_, ?_⟩
  · rw [hs]
  · intro t
    rw [hs]
    exact ⟨rfl, rfl⟩
  · intro call hc
    cases call with
    | read d2 => exact absurd (fanRead_state st d2) hc
    | write d2 data => exact ⟨d2, data, rfl⟩

/-- C7: in the initial state Speed is 0, so `fanRead` asks `MakeReading` of the
output "fan.speed" for a reading of 0: on the recording device the reading
carries "fan.speed" and 0, and on any device whose `MakeReading` accepts 0 with
reading `r` the result is `[r]`. -/
theorem C7_initial_read {R : Type} (d : Device R) :
    initState.speed = 0 ∧
    (∀ t, fanRead initState (probe t) = (([(t, "fan.speed", 0)], none), initState)) ∧
    (∀ r, (d.GetOutput "fan.speed").MakeReading 0 = (r, none) →
      fanRead initState d = (([r], none), initState)) ∧
    ∀ r e, (d.GetOutput "fan.speed").MakeReading 0 = (r, some e) →
      fanRead initState d = (([], some e), initState) := by
  refine ⟨rfl, ?_, ?_, ?_⟩
  · intro t
    rfl
  · intro r hr
    exact fanRead_ok initState d r hr
  · intro r e hr
    exact fanRead_err initState d r e hr

/-- C8: last successful speed write wins. After any finite sequence of `fanWrite`
calls from the initial state, the value a read carries is the integer parsed from
the data of the last call that had action "speed" and returned no error, or 0
when there is no such call; a write that returns an error or has another action
leaves Speed as it was. The scenario of the specification: write(speed,"10")
reads 10, then write(speed,"42") reads 42, then write(noop,"x") still reads 42. -/
theorem C8_last_speed_write_wins {R : Type} (calls : List (Device R × WriteData)) :
    (∀ t, (fanRead (runWrites initState calls).2 (probe t)).1 =
      ([(t, "fan.speed",
          expectedSpeed 0 ((calls.map Prod.snd).zip (runWrites initState calls).1))], none)) ∧
    (∀ (st : State) (d : Device R) (w : WriteData),
      (fanWrite st d w).1 ≠ none ∨ w.Action ≠ "speed" → (fanWrite st d w).2 = st) ∧
    (fanRead (runWrites initState
        [(probe 0, { Action := "speed", Data := [49, 48] })]).2 (probe 0)).1
      = ([(0, "fan.speed", 10)], none) ∧
    (fanRead (runWrites initState
        [(probe 0, { Action := "speed", Data := [49, 48] }),
         (probe 0, { Action := "speed", Data := [52, 50] })]).2 (probe 0)).1
      = ([(0, "fan.speed", 42)], none) ∧
    (fanRead (runWrites initState
        [(probe 0, { Action := "speed", Data := [49, 48] }),
         (probe 0, { Action := "speed", Data := [52, 50] }),
         (probe 0, { Action := "noop", Data := [120] })]).2 (probe 0)).1
      = ([(0, "fan.speed", 42)], none) := by
  refine ⟨?_, ?_, by decide, by decide, by decide⟩
  · intro t
    rw [fanRead_probe, runWrites_speed calls initState]
    rfl
  · intro st d w hw
    have h := fanWrite_speed_after st d w
    have hn : ¬ (w.Action = "speed" ∧ (fanWrite st d w).1 = none) := by
      intro hh
      rcases hw with h1 | h1
      · exact h1 hh.2
      · exact h1 hh.1
    rw [if_neg hn] at h
    cases hst : (fanWrite st d w).2 with
    | mk v =>
      rw [hst] at h
      cases st with
      | mk v0 =>
        have hv : v = v0 := h
        rw [hv]

/-- C9, as amended: for every integer `n` in the range of a 64-bit `int`
(-2^63 .. 2^63-1), `fanWrite` with action "speed" and data equal to the decimal
text of `n` returns no error and sets Speed to `n`; no further bound is put on
the value. -/
theorem C9_speed_within_int {R : Type} (st : State) (d : Device R) (n : Int)
    (hlo : minInt ≤ n) (hhi : n ≤ maxInt) :
    fanWrite st d { Action := "speed", Data := decimalText n } = (none, { speed := n }) :=
  fanWrite_speed_ok st d (decimalText n) n
    (intTextValue_ne_nil _ n (intTextValue_decimalText n))
    (Atoi_of_intText _ n (intTextValue_decimalText n) hlo hhi)

/-- C9 at the largest `int`, 9223372036854775807, from Speed 7. -/
theorem C9_speed_within_int_witness :
    decimalText 9223372036854775807
      = [57, 50, 50, 51, 51, 55, 50, 48, 51, 54, 56, 53, 52, 55, 55, 53, 56, 48, 55] ∧
    fanWrite { speed := 7 } (probe 0)
      { Action := "speed", Data := decimalText 9223372036854775807 }
      = (none, { speed := 9223372036854775807 }) :=
  ⟨by decide,
   C9_speed_within_int { speed := 7 } (probe 0) 9223372036854775807 (by decide) (by decide)⟩

/-- C9 as stated fails: the decimal text of -9223372036854775809 is
"-9223372036854775809", and `fanWrite` with action "speed" rejects it with a
range error and leaves Speed at 7. -/
theorem C9_counterexample :
    decimalText (-9223372036854775809)
      = [45, 57, 50, 50, 51, 51, 55, 50, 48, 51, 54, 56, 53, 52, 55, 55, 53, 56, 48, 57] ∧
    fanWrite { speed := 7 } (probe 0)
      { Action := "speed", Data := decimalText (-9223372036854775809) }
      = (some (Error.numError
          { Func := "Atoi",
            Num := [45, 57, 50, 50, 51, 51, 55, 50, 48, 51, 54, 56, 53, 52, 55, 55, 53, 56,
              48, 57],
            Err := StrconvErr.ErrRange }),
         { speed := 7 }) := by
  decide

/-- C10: one Speed value is shared by all devices. For every two devices and
every write payload, `fanWrite` returns the same error and the same state for
either device; the value a read hands to `MakeReading` is the Speed of the state
whichever recording device is read; and after a speed write for `d1` that
returned no error, a read of any recording device carries the parsed integer, and
a read of `d2` returns the reading `d2` makes of that integer. -/
theorem C10_speed_shared {R : Type} (st : State) (d1 d2 : Device R) (w : WriteData) :
    fanWrite st d1 w = fanWrite st d2 w ∧
    (∀ t1 t2, (fanRead st (probe t1)).1 = ([(t1, "fan.speed", st.speed)], none) ∧
      (fanRead st (probe t2)).1 = ([(t2, "fan.speed", st.speed)], none)) ∧
    (∀ t2, w.Action = "speed" → (fanWrite st d1 w).1 = none →
      (fanRead (fanWrite st d1 w).2 (probe t2)).1
        = ([(t2, "fan.speed", (Atoi w.Data).1)], none)) ∧
    ∀ r, w.Action = "speed" → (fanWrite st d1 w).1 = none →
      (d2.GetOutput "fan.speed").MakeReading (Atoi w.Data).1 = (r, none) →
      (fanRead (fanWrite st d1 w).2 d2).1 = ([r], none) := by
  refine ⟨rfl, ?_, ?_, ?_⟩
  · intro t1 t2
    exact ⟨rfl, rfl⟩
  · intro t2 ha he
    have h := fanWrite_speed_after st d1 w
    rw [if_pos ⟨ha, he⟩] at h
    rw [fanRead_probe, h]
  · intro r ha he hr
    have h := fanWrite_speed_after st d1 w
    rw [if_pos ⟨ha, he⟩] at h
    rw [← h] at hr
    rw [fanRead_ok _ d2 r hr]

/-- C10 at a write of "42" issued for device 1 and read back through device 2. -/
theorem C10_speed_shared_witness :
    (fanRead (fanWrite { speed := 7 } (probe 1) { Action := "speed", Data := [52, 50] }).2
      (probe 2)).1 = ([(2, "fan.speed", 42)], none) :=
  (C10_speed_shared { speed := 7 } (probe 1) (probe 2)
    { Action := "speed", Data := [52, 50] }).2.2.1 2 rfl (by decide)

/-! ## Further lemmas on the handler -/

theorem fanWriteWith_Atoi {R : Type} (st : State) (d : Device R) (w : WriteData) :
    fanWriteWith Atoi st d w = fanWrite st d w := rfl

theorem fanWriteWith_other {R : Type} (parse : List UInt8 → Int × Option Error)
    (st : State) (d : Device R) (action : String) (raw : List UInt8)
    (ha : action ≠ "speed") (hne : raw ≠ []) :
    fanWriteWith parse st d { Action := action, Data := raw } = (none, st) := by
  have hl : ¬ raw.length = 0 := fun h => hne (List.length_eq_zero.mp h)
  unfold fanWriteWith
  simp only [if_neg hl, if_neg ha]

/-- The error `fanWrite` returns does not depend on the state it starts from. -/
theorem fanWrite_error_indep {R : Type} (st1 st2 : State) (d : Device R) (w : WriteData) :
    (fanWrite st1 d w).1 = (fanWrite st2 d w).1 := by
  obtain ⟨action, raw⟩ := w
  by_cases hne : raw = []
  · subst hne
    rw [fanWrite_empty, fanWrite_empty]
  · by_cases ha : action = "speed"
    · subst ha
      cases he : (Atoi raw).2 with
      | some e =>
        rw [fanWrite_speed_err st1 d raw e hne he, fanWrite_speed_err st2 d raw e hne he]
      | none =>
        have hp : Atoi raw = ((Atoi raw).1, none) := Prod.ext rfl he
        rw [fanWrite_speed_ok st1 d raw _ hne hp, fanWrite_speed_ok st2 d raw _ hne hp]
    · rw [fanWrite_other st1 d action raw ha hne, fanWrite_other st2 d action raw ha hne]

theorem State_ext (a b : State) (h : a.speed = b.speed) : a = b := by
  cases a with
  | mk x =>
    cases b with
    | mk y =>
      have hxy : x = y := h
      rw [hxy]

/-- A write that returns an error leaves the state as it was. -/
theorem fanWrite_error_state {R : Type} (st : State) (d : Device R) (w : WriteData)
    (h : (fanWrite st d w).1 ≠ none) : (fanWrite st d w).2 = st := by
  apply State_ext
  rw [fanWrite_speed_after st d w]
  exact if_neg (fun hh => h hh.2)

theorem fanWrite_speed_rejects {R : Type} (st : State) (d : Device R) (raw : List UInt8)
    (hne : raw ≠ []) (h : (Atoi raw).2 ≠ none) :
    ∃ e, fanWrite st d { Action := "speed", Data := raw } = (some e, st) := by
  cases he : (Atoi raw).2 with
  | none => exact absurd he h
  | some e => exact ⟨e, fanWrite_speed_err st d raw e hne he⟩

/-! ## Lemmas on texts with a plus sign or leading zeros -/

/-- A `'+'` before a non-empty string of digits is an integer text and denotes
the number of the digits. -/
theorem intTextValue_of_plus (t : List UInt8) (hne : t ≠ [])
    (hd : t.all isDigit = true) : intTextValue (43 :: t) = some (digitsValue t : Int) := by
  have h43 : (43 : UInt8).toNat = 43 := rfl
  have h45 : ¬ (43 : UInt8).toNat = 45 := by
    rw [h43]
    omega
  have hu : unsignedPart 43 t = t := by
    unfold unsignedPart
    rw [if_pos (Or.inl h43)]
  rw [intTextValue_cons, hu, if_pos ⟨hne, hd⟩, if_neg h45]

/-- Zeros in front of a string of digits: still digits, and the same number. -/
theorem leading_zeros (z : Nat) (t : List UInt8) (hd : t.all isDigit = true) :
    (List.replicate z 48 ++ t).all isDigit = true ∧
      digitsValue (List.replicate z 48 ++ t) = digitsValue t := by
  have h48 : (48 : UInt8).toNat = 48 := rfl
  induction z with
  | zero => exact ⟨hd, rfl⟩
  | succ z ih =>
    have hc : List.replicate (z + 1) (48 : UInt8) ++ t = 48 :: (List.replicate z 48 ++ t) := rfl
    rw [hc]
    refine ⟨?_, ?_⟩
    · rw [all_isDigit_cons, h48]
      exact ⟨by omega, ih.1⟩
    · have h := ih.2
      unfold digitsValue at h
      unfold digitsValue
      rw [digitsFrom_cons, h48]
      exact h

theorem append_ne_nil_right (a t : List UInt8) (hne : t ≠ []) : a ++ t ≠ [] := by
  intro h
  exact hne (List.append_eq_nil.mp h).2

/-! ## The claims on the descriptor and on the exact behaviour of `fanWrite` -/

/-- C11: the exported handler descriptor `Fan` has the name "fan", its `Read` is
`fanRead` and its `Write` is `fanWrite`, so a call dispatched through the
descriptor returns what the direct call returns. -/
theorem C11_descriptor (R : Type) :
    (Fan R).Name = "fan" ∧ (Fan R).Read = fanRead ∧ (Fan R).Write = fanWrite ∧
    (∀ (st : State) (d : Device R), (Fan R).Read st d = fanRead st d) ∧
    ∀ (st : State) (d : Device R) (w : WriteData), (Fan R).Write st d w = fanWrite st d w :=
  ⟨rfl, rfl, rfl, fun _ _ => rfl, fun _ _ _ => rfl⟩

/-- C12: the exact failure condition of `fanWrite`. It returns an error if and
only if the data is empty, or the action is "speed" and the data is not one
optional '+' or '-' followed by one or more ASCII digits whose value lies in
-2^63 .. 2^63-1; a write that returns an error leaves Speed as it was. With
action "speed" the data " 10", "10\n", "-", "1.5", "0x10", "1_0" and
"9223372036854775808" are all rejected, Speed unchanged. -/
theorem C12_failure_condition {R : Type} (st : State) (d : Device R) (action : String)
    (raw : List UInt8) :
    ((fanWrite st d { Action := action, Data := raw }).1 ≠ none ↔
      raw = [] ∨ (action = "speed" ∧
        ¬ ∃ n, intTextValue raw = some n ∧ minInt ≤ n ∧ n ≤ maxInt)) ∧
    ((fanWrite st d { Action := action, Data := raw }).1 ≠ none →
      (fanWrite st d { Action := action, Data := raw }).2 = st) ∧
    ∀ x ∈ [[32, 49, 48], [49, 48, 10], [45], [49, 46, 53], [48, 120, 49, 48], [49, 95, 48],
        [57, 50, 50, 51, 51, 55, 50, 48, 51, 54, 56, 53, 52, 55, 55, 53, 56, 48, 56]],
      ∃ e, fanWrite st d { Action := "speed", Data := x } = (some e, st) := by
  refine ⟨?_, fanWrite_error_state st d _, ?_⟩
  · by_cases hne : raw = []
    · subst hne
      rw [fanWrite_empty]
      exact ⟨fun _ => Or.inl rfl, fun _ h => Option.noConfusion h⟩
    · by_cases ha : action = "speed"
      · subst ha
        cases he : (Atoi raw).2 with
        | some e =>
          rw [fanWrite_speed_err st d raw e hne he]
          refine ⟨fun _ => Or.inr ⟨rfl, ?_⟩, fun _ h => Option.noConfusion h⟩
          rintro ⟨n, h1, h2, h3⟩
          rw [Atoi_of_intText raw n h1 h2 h3] at he
          exact Option.noConfusion he
        | none =>
          have hp : Atoi raw = ((Atoi raw).1, none) := Prod.ext rfl he
          rw [fanWrite_speed_ok st d raw _ hne hp]
          refine ⟨fun h => absurd rfl h, ?_⟩
          rintro (h | ⟨_, h⟩)
          · exact absurd h hne
          · exact absurd ⟨_, Atoi_ok_inv raw he⟩ h
      · rw [fanWrite_other st d action raw ha hne]
        refine ⟨fun h => absurd rfl h, ?_⟩
        rintro (h | ⟨h, _⟩)
        · exact absurd h hne
        · exact absurd h ha
  · intro x hx
    simp only [List.mem_cons, List.mem_singleton, List.not_mem_nil, or_false] at hx
    rcases hx with h | h | h | h | h | h | h <;> subst h <;>
      exact fanWrite_speed_rejects st d _ (by decide) (by decide)

/-- C13: with action "speed", every non-negative integer `k` of the `int` range
is accepted in its canonical text, with a '+' in front and with `z` zeros in
front, each time setting Speed to `k`. In particular "-5" sets Speed to -5, and
"+7", "007" and "7" all set Speed to 7, so two different accepted payloads give
the same Speed: the mapping from accepted payloads to Speed is not injective. -/
theorem C13_noncanonical_inputs {R : Type} (st : State) (d : Device R) (k z : Nat)
    (hk : (k : Int) ≤ maxInt) :
    fanWrite st d { Action := "speed", Data := natText k } = (none, { speed := k }) ∧
    fanWrite st d { Action := "speed", Data := 43 :: natText k } = (none, { speed := k }) ∧
    fanWrite st d { Action := "speed", Data := List.replicate z 48 ++ natText k }
      = (none, { speed := k }) ∧
    fanWrite st d { Action := "speed", Data := [45, 53] } = (none, { speed := -5 }) ∧
    fanWrite st d { Action := "speed", Data := [43, 55] } = (none, { speed := 7 }) ∧
    fanWrite st d { Action := "speed", Data := [48, 48, 55] } = (none, { speed := 7 }) ∧
    fanWrite st d { Action := "speed", Data := [55] } = (none, { speed := 7 }) ∧
    ∃ x y : List UInt8, x ≠ y ∧
      fanWrite st d { Action := "speed", Data := x } = (none, { speed := 7 }) ∧
      fanWrite st d { Action := "speed", Data := y } = (none, { speed := 7 }) := by
  obtain ⟨h1, h2, h3⟩ := natText_spec k
  have hlo : minInt ≤ (k : Int) := by
    unfold minInt
    omega
  have hz := leading_zeros z (natText k) h2
  have hzne := append_ne_nil_right (List.replicate z 48) (natText k) h1
  have e1 : intTextValue (natText k) = some (k : Int) := by
    rw [intTextValue_of_digits _ h1 h2, h3]
  have e2 : intTextValue (43 :: natText k) = some (k : Int) := by
    rw [intTextValue_of_plus _ h1 h2, h3]
  have e3 : intTextValue (List.replicate z 48 ++ natText k) = some (k : Int) := by
    rw [intTextValue_of_digits _ hzne hz.1, hz.2, h3]
  have c5 : fanWrite st d { Action := "speed", Data := [43, 55] } = (none, { speed := 7 }) :=
    fanWrite_speed_ok st d _ _ (by decide) (by decide)
  have c7 : fanWrite st d { Action := "speed", Data := [55] } = (none, { speed := 7 }) :=
    fanWrite_speed_ok st d _ _ (by decide) (by decide)
  refine ⟨?_, ?_, ?_, ?_, c5, ?_, c7, [43, 55], [55], by decide, c5, c7⟩
  · exact fanWrite_speed_ok st d _ _ h1 (Atoi_of_intText _ _ e1 hlo hk)
  · exact fanWrite_speed_ok st d _ _ (List.cons_ne_nil _ _) (Atoi_of_intText _ _ e2 hlo hk)
  · exact fanWrite_speed_ok st d _ _ hzne (Atoi_of_intText _ _ e3 hlo hk)
  · exact fanWrite_speed_ok st d _ _ (by decide) (by decide)
  · exact fanWrite_speed_ok st d _ _ (by decide) (by decide)

/-- C13 at `k = 7` with two zeros in front, from Speed 3: "7", "+7" and "007". -/
theorem C13_noncanonical_inputs_witness :
    natText 7 = [55] ∧ List.replicate 2 (48 : UInt8) ++ natText 7 = [48, 48, 55] ∧
    fanWrite { speed := 3 } (probe 0) { Action := "speed", Data := natText 7 }
      = (none, { speed := 7 }) ∧
    fanWrite { speed := 3 } (probe 0) { Action := "speed", Data := 43 :: natText 7 }
      = (none, { speed := 7 }) ∧
    fanWrite { speed := 3 } (probe 0)
      { Action := "speed", Data := List.replicate 2 48 ++ natText 7 }
      = (none, { speed := 7 }) :=
  have h := C13_noncanonical_inputs { speed := 3 } (probe 0) 7 2 (by decide)
  ⟨by decide, by decide, h.1, h.2.1, h.2.2.1⟩

/-- C14: the action comparison is exact and case-sensitive. For every action that
is not equal to "speed" and every non-empty data, `fanWrite` returns no error and
leaves Speed as it was, and so does the body of `fanWrite` with any parser put in
the place of `strconv.Atoi`: the parser is not consulted. The actions "Speed",
"SPEED", " speed", "speed " and "" are such actions. -/
theorem C14_action_exact {R : Type} (st : State) (d : Device R) (action : String)
    (raw : List UInt8) (ha : action ≠ "speed") (hne : raw ≠ []) :
    fanWrite st d { Action := action, Data := raw } = (none, st) ∧
    (∀ parse : List UInt8 → Int × Option Error,
      fanWriteWith parse st d { Action := action, Data := raw } = (none, st)) ∧
    ∀ a ∈ ["Speed", "SPEED", " speed", "speed ", ""],
      a ≠ "speed" ∧ fanWrite st d { Action := a, Data := raw } = (none, st) := by
  refine ⟨fanWrite_other st d action raw ha hne, ?_, ?_⟩
  · intro parse
    exact fanWriteWith_other parse st d action raw ha hne
  · intro a hmem
    have hn : a ≠ "speed" := by
      simp only [List.mem_cons, List.mem_singleton, List.not_mem_nil, or_false] at hmem
      rcases hmem with h | h | h | h | h <;> subst h <;> decide
    exact ⟨hn, fanWrite_other st d a raw hn hne⟩

/-- C14 at action "Speed" with the non-numeric data "abc" from Speed 7. -/
theorem C14_action_exact_witness :
    fanWrite { speed := 7 } (probe 0) { Action := "Speed", Data := [97, 98, 99] }
      = (none, { speed := 7 }) ∧
    (∀ parse : List UInt8 → Int × Option Error,
      fanWriteWith parse { speed := 7 } (probe 0) { Action := "Speed", Data := [97, 98, 99] }
        = (none, { speed := 7 })) ∧
    ∀ a ∈ ["Speed", "SPEED", " speed", "speed ", ""],
      a ≠ "speed" ∧
      fanWrite { speed := 7 } (probe 0) { Action := a, Data := [97, 98, 99] }
        = (none, { speed := 7 }) :=
  C14_action_exact { speed := 7 } (probe 0) "Speed" [97, 98, 99] (by decide) (by decide)

/-- C15: the outcome of `fanWrite` does not depend on the current Speed. For every
payload and every two starting values `v1` and `v2` the returned error is the
same; and when the action is "speed" and the call returns no error, the
resulting Speed is the same from `v1` and from `v2`, namely the parsed integer. -/
theorem C15_outcome_independent_of_speed {R : Type} (d : Device R) (w : WriteData)
    (v1 v2 : Int) :
    (fanWrite { speed := v1 } d w).1 = (fanWrite { speed := v2 } d w).1 ∧
    (w.Action = "speed" → (fanWrite { speed := v1 } d w).1 = none →
      (fanWrite { speed := v1 } d w).2 = (fanWrite { speed := v2 } d w).2 ∧
      (fanWrite { speed := v1 } d w).2 = { speed := (Atoi w.Data).1 }) := by
  have hi := fanWrite_error_indep { speed := v1 } { speed := v2 } d w
  refine ⟨hi, ?_⟩
  intro ha he
  have he2 : (fanWrite { speed := v2 } d w).1 = none := by
    rw [← hi]
    exact he
  have h1 := fanWrite_speed_after { speed := v1 } d w
  have h2 := fanWrite_speed_after { speed := v2 } d w
  rw [if_pos ⟨ha, he⟩] at h1
  rw [if_pos ⟨ha, he2⟩] at h2
  refine ⟨State_ext _ _ ?_, State_ext _ _ h1⟩
  rw [h1, h2]

/-- C15 at the payload (speed, "42") from Speed 7 and from Speed -3. -/
theorem C15_outcome_independent_of_speed_witness :
    (fanWrite { speed := 7 } (probe 0) { Action := "speed", Data := [52, 50] }).2
      = (fanWrite { speed := -3 } (probe 0) { Action := "speed", Data := [52, 50] }).2 ∧
    (fanWrite { speed := 7 } (probe 0) { Action := "speed", Data := [52, 50] }).2
      = { speed := 42 } :=
  (C15_outcome_independent_of_speed (probe 0) { Action := "speed", Data := [52, 50] } 7 (-3)).2
    rfl (by decide)

/-- C16: `fanWrite` is idempotent. For every starting Speed and every payload, the
same `fanWrite` performed a second time returns the same error as the first time
and leaves the same Speed as performing it once. -/
theorem C16_write_idempotent {R : Type} (st : State) (d : Device R) (w : WriteData) :
    (fanWrite (fanWrite st d w).2 d w).1 = (fanWrite st d w).1 ∧
    (fanWrite (fanWrite st d w).2 d w).2 = (fanWrite st d w).2 := by
  have hi := fanWrite_error_indep (fanWrite st d w).2 st d w
  refine ⟨hi, State_ext _ _ ?_⟩
  have h1 := fanWrite_speed_after st d w
  have h2 := fanWrite_speed_after (fanWrite st d w).2 d w
  rw [hi] at h2
  by_cases hc : w.Action = "speed" ∧ (fanWrite st d w).1 = none
  · rw [if_pos hc] at h1 h2
    rw [h1, h2]
  · rw [if_neg hc] at h2
    exact h2

end Fan
